import Mathlib

/-!
Verification of the Speech Playback Reliability Controller of the mindMate
web client (ChatBot component).  The definitions below are a shallow
embedding of the TypeScript source: the text sanitizer `cleanTextForTTS`,
the Korean-voice selection, the voice-catalog cache (`loadVoices` /
`waitForVoices`), `stopSpeaking`, the utterance construction and the timed
retry / status-polling logic of `handleSpeak`.  Stateful code is embedded
as explicit state passing; the browser speech engine is an environment
parameter (busy flags / voice lists indexed by time).  Timers are embedded
as an explicit event queue processed in deadline order.
-/

namespace MindMate

/-! ### Text sanitizer (source lines 184-210)

JavaScript strings are embedded as `List Char` (Unicode scalar values; the
source regexes use the `u` flag, so they match code points).  Each
`.replace(/[range]/gu, "")` removes exactly the code points of the range
and is embedded as a filter; `.replace(/\s+/g, " ")` replaces each maximal
run of JavaScript whitespace by one space; `.trim()` drops leading and
trailing JavaScript whitespace. -/

/-- Membership in the JavaScript `\s` class (also the character set removed
by `String.prototype.trim`): tab through carriage return, space, NBSP,
Ogham space mark, the U+2000-U+200A block, line/paragraph separator,
narrow NBSP, medium mathematical space, ideographic space, and BOM. -/
def jsWs (c : Char) : Bool :=
  decide ((9 ≤ c.toNat ∧ c.toNat ≤ 13) ∨ c.toNat = 32 ∨ c.toNat = 160 ∨
    c.toNat = 0x1680 ∨ (0x2000 ≤ c.toNat ∧ c.toNat ≤ 0x200A) ∨
    c.toNat = 0x2028 ∨ c.toNat = 0x2029 ∨ c.toNat = 0x202F ∨
    c.toNat = 0x205F ∨ c.toNat = 0x3000 ∨ c.toNat = 0xFEFF)

/-- One `.replace(/[\u{lo}-\u{hi}]/gu, "")` step: drop the code points of
the inclusive range. -/
def rmRange (lo hi : Nat) (l : List Char) : List Char :=
  l.filter (fun c => !(decide (lo ≤ c.toNat ∧ c.toNat ≤ hi)))

/-- Embedding of `.replace(/\s+/g, " ")`: each maximal run of `jsWs`
characters becomes a single space.  The flag records whether the previous
character was whitespace (i.e. we are inside a run that already emitted
its space). -/
def collapseAux : Bool → List Char → List Char
  | _, [] => []
  | prev, c :: cs =>
    if jsWs c then
      if prev then collapseAux true cs
      else ' ' :: collapseAux true cs
    else c :: collapseAux false cs

/-- Collapse whitespace runs, starting outside a run. -/
def collapseWS (l : List Char) : List Char := collapseAux false l

/-- Remove a trailing run of whitespace (the right half of `.trim()`). -/
def trimRight : List Char → List Char
  | [] => []
  | c :: cs =>
    match trimRight cs with
    | [] => if jsWs c then [] else [c]
    | x :: xs => c :: x :: xs

/-- Embedding of `.trim()`: drop leading then trailing whitespace. -/
def trimJS (l : List Char) : List Char := trimRight (l.dropWhile jsWs)

/-- The twelve code-point-range removals of `cleanTextForTTS`
(source lines 188-200), innermost applied first (source order). -/
def rmChain (l : List Char) : List Char :=
  rmRange 0x200C 0x200D (rmRange 0x200D 0x200D (rmRange 0xFE00 0xFE0F
    (rmRange 0x1FA70 0x1FAFF (rmRange 0x1FA00 0x1FA6F
      (rmRange 0x1F900 0x1F9FF (rmRange 0x1F1E0 0x1F1FF
        (rmRange 0x1F680 0x1F6FF (rmRange 0x1F600 0x1F64F
          (rmRange 0x2700 0x27BF (rmRange 0x2600 0x26FF
            (rmRange 0x1F300 0x1F9FF l)))))))))))

/-- The replace chain of `cleanTextForTTS` (source lines 186-203):
twelve code-point-range removals, then whitespace collapse, then trim. -/
def cleanList (l : List Char) : List Char := trimJS (collapseWS (rmChain l))

/-- Source function `cleanTextForTTS` (lines 184-210); the logging is pure
diagnostics and has no state effect. -/
def cleanTextForTTS (s : String) : String := ⟨cleanList s.data⟩

/-- A code point removed by at least one of the twelve replace steps. -/
def removedAny (n : Nat) : Prop :=
  (0x1F300 ≤ n ∧ n ≤ 0x1F9FF) ∨ (0x2600 ≤ n ∧ n ≤ 0x26FF) ∨
  (0x2700 ≤ n ∧ n ≤ 0x27BF) ∨ (0x1F600 ≤ n ∧ n ≤ 0x1F64F) ∨
  (0x1F680 ≤ n ∧ n ≤ 0x1F6FF) ∨ (0x1F1E0 ≤ n ∧ n ≤ 0x1F1FF) ∨
  (0x1F900 ≤ n ∧ n ≤ 0x1F9FF) ∨ (0x1FA00 ≤ n ∧ n ≤ 0x1FA6F) ∨
  (0x1FA70 ≤ n ∧ n ≤ 0x1FAFF) ∨ (0xFE00 ≤ n ∧ n ≤ 0xFE0F) ∨
  (0x200D ≤ n ∧ n ≤ 0x200D) ∨ (0x200C ≤ n ∧ n ≤ 0x200D)

instance (n : Nat) : Decidable (removedAny n) := by
  unfold removedAny; infer_instance

/-- The character classes named by the specification: the pictographic /
emoji code-point ranges, the variation selectors, and the zero-width
joiner / non-joiner. -/
def specRemoved (n : Nat) : Prop :=
  (0x2600 ≤ n ∧ n ≤ 0x26FF) ∨ (0x2700 ≤ n ∧ n ≤ 0x27BF) ∨
  (0x1F1E0 ≤ n ∧ n ≤ 0x1F1FF) ∨ (0x1F300 ≤ n ∧ n ≤ 0x1F9FF) ∨
  (0x1FA00 ≤ n ∧ n ≤ 0x1FAFF) ∨ (0xFE00 ≤ n ∧ n ≤ 0xFE0F) ∨
  (0x200C ≤ n ∧ n ≤ 0x200D)

instance (n : Nat) : Decidable (specRemoved n) := by
  unfold specRemoved; infer_instance

/-- Sanitizer as worded by the specification: remove the pictographic /
selector / zero-width classes, collapse whitespace runs to single spaces,
and trim. -/
def specSanitize (s : String) : String :=
  ⟨trimJS (collapseWS (s.data.filter (fun c => !(decide (specRemoved c.toNat)))))⟩

/-! ### Voices and the Korean-voice selection (source lines 319-335) -/

/-- A platform speech-synthesis voice: only the fields the controller
reads. -/
structure SpeechVoice where
  name : String
  lang : String
deriving DecidableEq

/-- JavaScript `String.prototype.startsWith`, embedded over code points. -/
def strStarts (pat s : List Char) : Bool :=
  match pat, s with
  | [], _ => true
  | _ :: _, [] => false
  | p :: ps, c :: cs => p == c && strStarts ps cs

/-- JavaScript `String.prototype.includes`, embedded over code points. -/
def strHas (pat : List Char) : List Char → Bool
  | [] => pat.isEmpty
  | c :: cs => strStarts pat (c :: cs) || strHas pat cs

/-- Source `koreanVoice` cascade (lines 321-324): first exact `ko-KR`
match, else first `ko`-prefixed language, else first language containing
`KR`. -/
def selectKoreanVoice (vs : List SpeechVoice) : Option SpeechVoice :=
  ((vs.find? (fun v => v.lang == "ko-KR")).orElse (fun _ =>
    vs.find? (fun v => strStarts "ko".data v.lang.data))).orElse (fun _ =>
      vs.find? (fun v => strHas "KR".data v.lang.data))

/-- Source lines 326-335: use the Korean voice if found, otherwise the
first available voice, otherwise leave the platform default (`none`). -/
def chooseUtteranceVoice (vs : List SpeechVoice) : Option SpeechVoice :=
  match selectKoreanVoice vs with
  | some v => some v
  | none => vs.head?

/-- Voice selection as worded by the specification / claim: exact
language-tag match, then language-prefix match, then regional-fragment
match, then first available voice, then none. -/
def specSelectVoice (vs : List SpeechVoice) : Option SpeechVoice :=
  match vs.find? (fun v => v.lang == "ko-KR") with
  | some v => some v
  | none =>
    match vs.find? (fun v => strStarts "ko".data v.lang.data) with
    | some v => some v
    | none =>
      match vs.find? (fun v => strHas "KR".data v.lang.data) with
      | some v => some v
      | none => vs.head?

/-! ### Voice catalog cache (source lines 44-86 and 213-255)

The refs `voicesRef` / `voicesLoadedRef` are embedded as an explicit
`VoiceCache` record.  The platform voice directory is an environment
function from poll tick (0 = the immediate synchronous read) to the voice
list it reports at that tick. -/

/-- The cached voice catalog: `voicesRef.current` and
`voicesLoadedRef.current`. -/
structure VoiceCache where
  voices : List SpeechVoice
  loaded : Bool
deriving DecidableEq

/-- Source `loadVoices` (lines 45-58): read the platform list and cache it
only when it is non-empty. -/
def loadVoices (reported : List SpeechVoice) (st : VoiceCache) : VoiceCache :=
  if reported.length > 0 then ⟨reported, true⟩ else st

/-- Result of `waitForVoices`: the resolved list, the cache afterwards, and
how many 100ms interval ticks ran (0 = resolved without polling). -/
structure WaitResult where
  result : List SpeechVoice
  cache : VoiceCache
  polls : Nat
deriving DecidableEq

/-- The polling interval of `waitForVoices` (lines 235-253): on each tick
increment `attempts`, read the platform list, resolve with it (and cache
it) when non-empty, and on the 30th attempt resolve with whatever is
currently cached.  `fuel` is an upper bound on remaining ticks and is
chosen so the attempt cap always fires first. -/
def wfvLoop (env : Nat → List SpeechVoice) (st : VoiceCache) :
    Nat → Nat → WaitResult
  | attempt, 0 => ⟨st.voices, st, attempt⟩
  | attempt, fuel + 1 =>
    let a := attempt + 1
    let vs := env a
    if vs.length > 0 then ⟨vs, ⟨vs, true⟩, a⟩
    else if 30 ≤ a then ⟨st.voices, st, a⟩
    else wfvLoop env st a fuel

/-- Source `waitForVoices` (lines 213-255): resolve the cache immediately
when loaded and non-empty; otherwise try one synchronous read; otherwise
poll every 100ms for at most 30 attempts, resolving with the current cache
on exhaustion. -/
def waitForVoicesRun (env : Nat → List SpeechVoice) (st : VoiceCache) :
    WaitResult :=
  if st.loaded ∧ st.voices.length > 0 then ⟨st.voices, st, 0⟩
  else
    let v0 := env 0
    if v0.length > 0 then ⟨v0, ⟨v0, true⟩, 0⟩
    else wfvLoop env st 0 30

/-! ### Engine flags, observable state, stop, utterance construction -/

/-- The platform speech engine's externally readable flags. -/
structure Engine where
  speaking : Bool
  pending : Bool
deriving DecidableEq

/-- The controller's observable state: the React `isSpeaking` flag and
`currentUtteranceRef.current`, with utterance objects identified by a
generation number. -/
structure CtrlObs where
  isSpeaking : Bool
  current : Option Nat
deriving DecidableEq

/-- Source `stopSpeaking` (lines 168-181): when the engine is speaking or
pending, cancel, reset the observable state, and resolve after a 100ms
delay; otherwise resolve immediately with no change.  The third component
is the wait in milliseconds before the promise resolves. -/
def stopSpeaking (e : Engine) (st : CtrlObs) : Engine × CtrlObs × Nat :=
  if e.speaking || e.pending then (⟨false, false⟩, ⟨false, none⟩, 100)
  else (e, st, 0)

/-- An utterance request: the fields `handleSpeak` sets on the
`SpeechSynthesisUtterance`.  Rate, pitch and volume are stored in units
where the source's `1.0` is `1`. -/
structure UttReq where
  text : String
  lang : String
  rate : Nat
  pitch : Nat
  volume : Nat
  voice : Option SpeechVoice
deriving DecidableEq

/-- Source lines 297-301 and 326-334: the primary utterance, with fixed
language `ko-KR`, neutral rate and pitch, maximum volume, and the selected
voice. -/
def mkUtterance (cleanedText : String) (voice : Option SpeechVoice) : UttReq :=
  ⟨cleanedText, "ko-KR", 1, 1, 1, voice⟩

/-- Source lines 560-565: the retry utterance is freshly constructed from
the same `cleanedText` and copies language, rate, pitch, volume and voice
from the original utterance. -/
def mkRetryUtterance (cleanedText : String) (u : UttReq) : UttReq :=
  ⟨cleanedText, u.lang, u.rate, u.pitch, u.volume, u.voice⟩

/-- Outcome of the synchronous-with-awaits prefix of `handleSpeak`, up to
and including the `speechSynthesis.speak(utterance)` submission (line 426):
the engine and observable state afterwards, the cache afterwards, whether a
prior utterance was cancelled, the submitted request if any, and whether an
error was surfaced to the caller (`handleSpeak` catches everything, so this
is always `false`). -/
structure SpeakOutcome where
  engine : Engine
  obs : CtrlObs
  cache : VoiceCache
  cancelled : Bool
  submitted : Option UttReq
  surfacedError : Bool
deriving DecidableEq

/-- The prefix of `handleSpeak` (lines 258-426) as a state transformer.
`voiceEnv` feeds `waitForVoices`; `nowVoices` is what the two later
synchronous `getVoices()` reads (lines 284 and 319) report; `gen` is the
generation number identifying the new utterance object.  Steps embedded:
sanitize and abort on empty (NoContent, lines 266-270), `stopSpeaking`
(line 275), `waitForVoices` (line 278), the empty-catalog re-read
(lines 281-289), utterance construction (lines 297-316, which sets
`currentUtteranceRef.current` to the new utterance), voice selection
(lines 319-335), and submission. -/
def handleSpeakEntry (text : String) (e : Engine) (st : CtrlObs)
    (cache : VoiceCache) (voiceEnv : Nat → List SpeechVoice)
    (nowVoices : List SpeechVoice) (gen : Nat) : SpeakOutcome :=
  let cleaned := cleanTextForTTS text
  if cleaned = "" then ⟨e, st, cache, false, none, false⟩
  else
    let stopped := stopSpeaking e st
    let e1 := stopped.1
    let st1 := stopped.2.1
    let wr := waitForVoicesRun voiceEnv cache
    let voices := wr.result
    let cache2 :=
      if voices.length = 0 then
        if nowVoices.length > 0 then ⟨nowVoices, true⟩ else wr.cache
      else wr.cache
    let availableVoices := if voices.length > 0 then voices else nowVoices
    let u := mkUtterance cleaned (chooseUtteranceVoice availableVoices)
    ⟨e1, ⟨st1.isSpeaking, some gen⟩, cache2, e.speaking || e.pending,
      some u, false⟩

/-! ### Utterance callback handlers (stale-callback analysis)

Handlers as attached by the source, as functions on the observable state.
The original utterance's `onend` / `onerror` (lines 368-406) are guarded by
`currentUtteranceRef.current === utterance`; its `onstart` (lines 340-345)
and all three retry-utterance handlers (lines 567-580) are unguarded. -/

/-- Source lines 340-345: `utterance.onstart` sets `isSpeaking` to true
without checking that the utterance is still the active one. -/
def utteranceOnStart (st : CtrlObs) : CtrlObs := { st with isSpeaking := true }

/-- Source lines 368-384: `utterance.onend`, guarded by the active-request
check. -/
def utteranceOnEnd (u : Nat) (st : CtrlObs) : CtrlObs :=
  if st.current = some u then ⟨false, none⟩ else st

/-- Source lines 386-406: `utterance.onerror`, guarded by the
active-request check; the second component reports whether the error is
logged as unexpected (neither `canceled` nor `not-allowed`). -/
def utteranceOnError (u : Nat) (benign : Bool) (st : CtrlObs) :
    CtrlObs × Bool :=
  if st.current = some u then (⟨false, none⟩, !benign) else (st, false)

/-- Source lines 567-570: `retryUtterance.onstart`, no guard. -/
def retryUttOnStart (st : CtrlObs) : CtrlObs := { st with isSpeaking := true }

/-- Source lines 571-575: `retryUtterance.onend` resets `isSpeaking` and
clears `currentUtteranceRef.current` with no active-request guard. -/
def retryUttOnEnd (_ : CtrlObs) : CtrlObs := ⟨false, none⟩

/-- Source lines 576-580: `retryUtterance.onerror`, no guard, always
logged as an error. -/
def retryUttOnError (_ : CtrlObs) : CtrlObs := ⟨false, none⟩

/-! ### Timed machine for one `handleSpeak` submission (lines 408-594)

After `speechSynthesis.speak(utterance)` at time 0, the source schedules:
a 50ms resume check (lines 429-438, it only calls `resume()` and touches
no controller state), the 100ms post-submit check (lines 441-480) which
can escalate to a 500ms-later re-check and an immediate resubmission, the
300ms status-polling interval (lines 483-545), and the 1000ms start
timeout (lines 548-594) which cancels and submits a fresh retry utterance.
Events are kept in a queue sorted by deadline (ties fire in scheduling
order, and every tie in the traces below is between no-op events).  The
engine environment maps a time to its busy flag
(`speaking || pending`).  Callback events are injected through the initial
queue; a run with none models the silent-drop scenario in which the engine
never fires `onstart` / `onend` / `onerror`. -/

/-- Which utterance object a machine event or reference designates. -/
inductive UttTag
  | main
  | retry
deriving DecidableEq

/-- Timer and callback events of one `handleSpeak` generation. -/
inductive TEv
  | resumeCheck
  | check100
  | check500
  | immediateResubmit
  | poll
  | startTO
  | retryOuter
  | retrySpeak
  | cbStartMain
  | cbEndMain
  | cbErrorMain (benign : Bool)
  | cbStartRetry
  | cbEndRetry
  | cbErrorRetry
deriving DecidableEq

/-- Machine state for one `handleSpeak` generation: the observable flags,
the closure-local timer handles (`pollOn` = `statusCheckInterval` not yet
cleared, `stOn` = `startTimeout` not yet cleared), the polling counters
`consecutiveActiveChecks` / `hasDetectedStart`, and instrumentation
counting `speechSynthesis.speak` resubmissions, `cancel()` calls, and
whether any error was logged as unexpected. -/
structure MS where
  isSpeaking : Bool
  current : Option UttTag
  pollOn : Bool
  stOn : Bool
  consec : Nat
  hasDetected : Bool
  resubmits : Nat
  cancels : Nat
  errorMarked : Bool
deriving DecidableEq

/-- State right after the initial submission: not speaking, the main
utterance is the active reference, interval and timeout armed. -/
def initMS : MS := ⟨false, some .main, true, true, 0, false, 0, 0, false⟩

/-- The timers armed by the source right after `speak(utterance)`. -/
def initQ : List (Nat × TEv) :=
  [(50, .resumeCheck), (100, .check100), (300, .poll), (1000, .startTO)]

/-- One tick of `statusCheckInterval` (lines 486-545).  `isActive` is the
engine's `speaking || pending` at the tick.  Three consecutive active
checks with the utterance still current confirm speaking and disarm the
start timeout; once confirmed, the first non-active check ends the
utterance, clears the active reference, and clears the interval. -/
def pollTick (isActive : Bool) (s : MS) : MS :=
  if ¬s.pollOn then s
  else if isActive ∧ s.current = some .main then
    let c := s.consec + 1
    if 3 ≤ c ∧ ¬s.hasDetected then
      { s with consec := c, isSpeaking := true, hasDetected := true,
               stOn := false }
    else { s with consec := c }
  else if s.current = some .main then
    if s.hasDetected ∧ ¬isActive then
      { s with consec := 0, isSpeaking := false, current := none,
               hasDetected := false, pollOn := false }
    else { s with consec := 0 }
  else s

/-- The event handlers of one generation.  `cap` is the value of the React
`isSpeaking` state captured by the `handleSpeak` closure (line 458 reads
this stale binding, not the live flag).  Returns the new state and newly
scheduled events with absolute deadlines. -/
def handleEv (cap : Bool) (env : Nat → Bool) (t : Nat) (ev : TEv)
    (s : MS) : MS × List (Nat × TEv) :=
  match ev with
  | .resumeCheck => (s, [])
  | .check100 =>
    if env t then (s, [(t + 500, .check500)]) else (s, [])
  | .check500 =>
    if s.current = some .main ∧ ¬cap then
      if ¬env t then
        ({ s with cancels := s.cancels + 1 }, [(t + 100, .immediateResubmit)])
      else (s, [])
    else (s, [])
  | .immediateResubmit => ({ s with resubmits := s.resubmits + 1 }, [])
  | .poll =>
    let s1 := pollTick (env t) s
    if s1.pollOn then (s1, [(t + 300, .poll)]) else (s1, [])
  | .startTO =>
    if ¬s.stOn then (s, [])
    else
      let s0 := { s with pollOn := false, stOn := false }
      if s.current = some .main ∧ ¬env t then
        ({ s0 with cancels := s0.cancels + 1 }, [(t + 200, .retryOuter)])
      else (s0, [])
  | .retryOuter =>
    ({ s with current := some .retry }, [(t + 100, .retrySpeak)])
  | .retrySpeak => ({ s with resubmits := s.resubmits + 1 }, [])
  | .cbStartMain =>
    ({ s with isSpeaking := true, stOn := false }, [])
  | .cbEndMain =>
    let s0 := { s with stOn := false, pollOn := false }
    if s.current = some .main then
      ({ s0 with isSpeaking := false, current := none }, [])
    else (s0, [])
  | .cbErrorMain benign =>
    let s0 := { s with stOn := false, pollOn := false }
    if s.current = some .main then
      ({ s0 with isSpeaking := false, current := none,
                 errorMarked := s0.errorMarked || !benign }, [])
    else (s0, [])
  | .cbStartRetry => ({ s with isSpeaking := true }, [])
  | .cbEndRetry => ({ s with isSpeaking := false, current := none }, [])
  | .cbErrorRetry =>
    ({ s with isSpeaking := false, current := none, errorMarked := true }, [])

/-- Insert an event into a deadline-sorted queue, after events with the
same deadline. -/
def insertEv : List (Nat × TEv) → Nat × TEv → List (Nat × TEv)
  | [], e => [e]
  | x :: xs, e => if e.1 < x.1 then e :: x :: xs else x :: insertEv xs e

/-- Run the event loop: repeatedly pop the earliest event and handle it,
until the queue is empty or the fuel runs out. -/
def runTTS (cap : Bool) (env : Nat → Bool) :
    Nat → MS → List (Nat × TEv) → MS × List (Nat × TEv)
  | 0, s, q => (s, q)
  | _ + 1, s, [] => (s, [])
  | fuel + 1, s, (t, ev) :: rest =>
    let r := handleEv cap env t ev s
    runTTS cap env fuel r.1 (r.2.foldl insertEv rest)

/-- Engine environment of the silent-drop scenario: never busy, no
callbacks ever fire. -/
def silentEnv : Nat → Bool := fun _ => false

/-- The complete run of one submission against a silent engine. -/
def runSilent : MS × List (Nat × TEv) := runTTS false silentEnv 30 initMS initQ

/-- Engine environment that is busy only around the 100ms and 300ms
checks and then goes idle without ever confirming: busy exactly at the
100ms and 300ms observations. -/
def transientEnv : Nat → Bool := fun t => t == 100 || t == 300

/-- The complete run of one submission against the transiently busy
engine. -/
def runTransient : MS × List (Nat × TEv) :=
  runTTS false transientEnv 30 initMS initQ

/-! ### Structural predicates on sanitized text (proof auxiliaries) -/

/-- No two adjacent characters are both whitespace. -/
def noTwoWs : List Char → Prop
  | [] => True
  | [_] => True
  | a :: b :: rest => ¬(jsWs a = true ∧ jsWs b = true) ∧ noTwoWs (b :: rest)

/-- The first character, if any, is not whitespace. -/
def headNotWs : List Char → Prop
  | [] => True
  | c :: _ => jsWs c = false

/-- The last character, if any, is not whitespace. -/
def lastNotWs (l : List Char) : Prop :=
  match l.getLast? with
  | none => True
  | some c => jsWs c = false

/-- Invariant of the voice cache: whenever the cached list is non-empty the
loaded flag is set (every assignment in the source sets both together). -/
def CacheInv (st : VoiceCache) : Prop := st.voices ≠ [] → st.loaded = true

/-! ### Sanitizer lemmas -/

theorem mem_collapseAux {c : Char} :
    ∀ (b : Bool) (l : List Char), c ∈ collapseAux b l → c = ' ' ∨ c ∈ l := by
  intro b l
  induction l generalizing b with
  | nil => simp [collapseAux]
  | cons d ds ih =>
    intro h
    by_cases hw : jsWs d = true
    · cases b with
      | true =>
        simp only [collapseAux, hw, if_true] at h
        rcases ih true h with h1 | h1
        · exact Or.inl h1
        · exact Or.inr (List.mem_cons_of_mem _ h1)
      | false =>
        simp only [collapseAux, hw, if_true, if_false] at h
        rcases List.mem_cons.mp h with h1 | h1
        · exact Or.inl h1
        · rcases ih true h1 with h2 | h2
          · exact Or.inl h2
          · exact Or.inr (List.mem_cons_of_mem _ h2)
    · simp only [collapseAux, hw, if_false] at h
      rcases List.mem_cons.mp h with h1 | h1
      · exact Or.inr (h1 ▸ List.mem_cons_self _ _)
      · rcases ih false h1 with h2 | h2
        · exact Or.inl h2
        · exact Or.inr (List.mem_cons_of_mem _ h2)

theorem wsSpace_collapseAux {c : Char} :
    ∀ (b : Bool) (l : List Char), c ∈ collapseAux b l → jsWs c = true → c = ' ' := by
  intro b l
  induction l generalizing b with
  | nil => simp [collapseAux]
  | cons d ds ih =>
    intro h hc
    by_cases hw : jsWs d = true
    · cases b with
      | true =>
        simp only [collapseAux, hw, if_true] at h
        exact ih true h hc
      | false =>
        simp only [collapseAux, hw, if_true, if_false] at h
        rcases List.mem_cons.mp h with h1 | h1
        · exact h1
        · exact ih true h1 hc
    · simp only [collapseAux, hw, if_false] at h
      rcases List.mem_cons.mp h with h1 | h1
      · exact absurd (h1 ▸ hc) (by simp [hw])
      · exact ih false h1 hc

theorem headNotWs_collapseAux_true :
    ∀ (l : List Char), headNotWs (collapseAux true l) := by
  intro l
  induction l with
  | nil => simp [collapseAux, headNotWs]
  | cons d ds ih =>
    by_cases hw : jsWs d = true
    · simpa only [collapseAux, hw, if_true] using ih
    · simp only [collapseAux, hw, if_false]
      simpa [headNotWs] using hw

theorem noTwoWs_collapseAux : ∀ (b : Bool) (l : List Char),
    noTwoWs (collapseAux b l) := by
  intro b l
  induction l generalizing b with
  | nil => simp [collapseAux, noTwoWs]
  | cons d ds ih =>
    by_cases hw : jsWs d = true
    · cases b with
      | true => simpa only [collapseAux, hw, if_true] using ih true
      | false =>
        simp only [collapseAux, hw, if_true, if_false]
        have hh := headNotWs_collapseAux_true ds
        have hn := ih true
        cases hx : collapseAux true ds with
        | nil => simp [noTwoWs]
        | cons x xs =>
          rw [hx] at hh hn
          refine ⟨?_, hn⟩
          intro hcontra
          simp only [headNotWs] at hh
          exact absurd hcontra.2 (by simp [hh])
    · simp only [collapseAux, hw, if_false]
      have hn := ih false
      cases hx : collapseAux false ds with
      | nil => simp [noTwoWs]
      | cons x xs =>
        rw [hx] at hn
        exact ⟨fun hcontra => absurd hcontra.1 (by simp [hw]), hn⟩

theorem head_trimRight {d : Char} {ds : List Char} {x : Char} {xs : List Char}
    (h : trimRight (d :: ds) = x :: xs) : x = d := by
  simp only [trimRight] at h
  cases hx : trimRight ds with
  | nil =>
    rw [hx] at h
    by_cases hw : jsWs d = true
    · simp [hw] at h
    · simp [hw] at h
      exact (h.1).symm
  | cons y ys =>
    rw [hx] at h
    exact (List.cons.injEq .. ▸ h).1.symm

theorem mem_trimRight {c : Char} :
    ∀ (l : List Char), c ∈ trimRight l → c ∈ l := by
  intro l
  induction l with
  | nil => simp [trimRight]
  | cons d ds ih =>
    intro h
    simp only [trimRight] at h
    cases hx : trimRight ds with
    | nil =>
      rw [hx] at h
      by_cases hw : jsWs d = true
      · simp [hw] at h
      · simp [hw] at h
        simp [h]
    | cons y ys =>
      rw [hx] at h
      rcases List.mem_cons.mp h with h1 | h1
      · simp [h1]
      · exact List.mem_cons_of_mem _ (ih (hx ▸ h1))

theorem noTwoWs_tail {d : Char} {ds : List Char}
    (h : noTwoWs (d :: ds)) : noTwoWs ds := by
  cases ds with
  | nil => trivial
  | cons e es => exact h.2

theorem noTwoWs_trimRight :
    ∀ (l : List Char), noTwoWs l → noTwoWs (trimRight l) := by
  intro l
  induction l with
  | nil => simp [trimRight, noTwoWs]
  | cons d ds ih =>
    intro h
    simp only [trimRight]
    cases hx : trimRight ds with
    | nil =>
      by_cases hw : jsWs d = true
      · simp [hw, noTwoWs]
      · simp [hw, noTwoWs]
    | cons y ys =>
      have hts := ih (noTwoWs_tail h)
      rw [hx] at hts
      refine ⟨?_, hts⟩
      cases ds with
      | nil => simp [trimRight] at hx
      | cons e es =>
        have hy : y = e := head_trimRight hx
        intro hcontra
        exact h.1 ⟨hcontra.1, hy ▸ hcontra.2⟩

theorem lastNotWs_trimRight : ∀ (l : List Char), lastNotWs (trimRight l) := by
  intro l
  induction l with
  | nil => simp [trimRight, lastNotWs]
  | cons d ds ih =>
    simp only [trimRight]
    cases hx : trimRight ds with
    | nil =>
      by_cases hw : jsWs d = true
      · simp [hw, lastNotWs]
      · simp [hw, lastNotWs]
    | cons y ys =>
      rw [hx] at ih
      simpa [lastNotWs, List.getLast?_cons_cons] using ih

theorem headNotWs_trimRight :
    ∀ (l : List Char), headNotWs l → headNotWs (trimRight l) := by
  intro l h
  cases l with
  | nil => simpa [trimRight] using h
  | cons d ds =>
    cases hx : trimRight (d :: ds) with
    | nil => trivial
    | cons x xs =>
      have := head_trimRight hx
      subst this
      exact h

theorem headNotWs_dropWhile :
    ∀ (l : List Char), headNotWs (l.dropWhile jsWs) := by
  intro l
  induction l with
  | nil => simp [List.dropWhile, headNotWs]
  | cons d ds ih =>
    by_cases hw : jsWs d = true
    · simpa [List.dropWhile, hw] using ih
    · simp [List.dropWhile, hw, headNotWs]

theorem noTwoWs_dropWhile :
    ∀ (l : List Char), noTwoWs l → noTwoWs (l.dropWhile jsWs) := by
  intro l
  induction l with
  | nil => simp [List.dropWhile]
  | cons d ds ih =>
    intro h
    by_cases hw : jsWs d = true
    · simpa [List.dropWhile, hw] using ih (noTwoWs_tail h)
    · simpa [List.dropWhile, hw] using h

theorem mem_dropWhile {c : Char} :
    ∀ (l : List Char), c ∈ l.dropWhile jsWs → c ∈ l := by
  intro l
  induction l with
  | nil => simp [List.dropWhile]
  | cons d ds ih =>
    intro h
    by_cases hw : jsWs d = true
    · simp only [List.dropWhile, hw, if_true] at h
      exact List.mem_cons_of_mem _ (ih h)
    · simpa [List.dropWhile, hw] using h

theorem collapseAux_cons (b : Bool) (c : Char) (cs : List Char) :
    collapseAux b (c :: cs) =
      if jsWs c = true then
        (if b = true then collapseAux true cs else ' ' :: collapseAux true cs)
      else c :: collapseAux false cs := by
  cases b <;> by_cases h : jsWs c = true <;> simp [collapseAux, h]

theorem trimRight_cons (c : Char) (cs : List Char) :
    trimRight (c :: cs) =
      match trimRight cs with
      | [] => if jsWs c = true then [] else [c]
      | x :: xs => c :: x :: xs := rfl

theorem collapse_fix : ∀ (l : List Char), noTwoWs l →
    (∀ c ∈ l, jsWs c = true → c = ' ') → lastNotWs l →
    (collapseAux false l = l ∧ (headNotWs l → collapseAux true l = l)) := by
  intro l
  induction l with
  | nil => intro _ _ _; exact ⟨rfl, fun _ => rfl⟩
  | cons d ds ih =>
    intro hnt hws hlast
    by_cases hw : jsWs d = true
    · have hd : d = ' ' := hws d (List.mem_cons_self _ _) hw
      cases ds with
      | nil =>
        have hcon : jsWs d = false := by
          simpa [lastNotWs, List.getLast?] using hlast
        rw [hcon] at hw
        cases hw
      | cons e es =>
        have hne : jsWs e = false := by
          cases he : jsWs e with
          | false => rfl
          | true => exact absurd ⟨hw, he⟩ hnt.1
        have hlast' : lastNotWs (e :: es) := by
          simpa [lastNotWs, List.getLast?_cons_cons] using hlast
        have hws' : ∀ c ∈ e :: es, jsWs c = true → c = ' ' :=
          fun c hc => hws c (List.mem_cons_of_mem _ hc)
        have ihr := ih hnt.2 hws' hlast'
        have htail : collapseAux true (e :: es) = e :: es := ihr.2 hne
        constructor
        · rw [collapseAux_cons, if_pos hw, if_neg Bool.false_ne_true, htail, hd]
        · intro hhead
          simp only [headNotWs] at hhead
          rw [hhead] at hw
          cases hw
    · have hwf : ¬jsWs d = true := hw
      have hlast' : lastNotWs ds := by
        cases ds with
        | nil => trivial
        | cons e es =>
          simpa [lastNotWs, List.getLast?_cons_cons] using hlast
      have hws' : ∀ c ∈ ds, jsWs c = true → c = ' ' :=
        fun c hc => hws c (List.mem_cons_of_mem _ hc)
      have ihr := ih (noTwoWs_tail hnt) hws' hlast'
      constructor
      · rw [collapseAux_cons, if_neg hwf, ihr.1]
      · intro _
        rw [collapseAux_cons, if_neg hwf, ihr.1]

theorem trimRight_fix : ∀ (l : List Char), lastNotWs l → trimRight l = l := by
  intro l
  induction l with
  | nil => intro _; rfl
  | cons d ds ih =>
    intro hlast
    cases ds with
    | nil =>
      have hnw : jsWs d = false := by
        simpa [lastNotWs, List.getLast?] using hlast
      simp [trimRight, hnw]
    | cons e es =>
      have hlast' : lastNotWs (e :: es) := by
        simpa [lastNotWs, List.getLast?_cons_cons] using hlast
      have hrec := ih hlast'
      rw [trimRight_cons, hrec]

theorem dropWhile_fix : ∀ (l : List Char), headNotWs l →
    l.dropWhile jsWs = l := by
  intro l h
  cases l with
  | nil => rfl
  | cons d ds =>
    simp only [headNotWs] at h
    simp [List.dropWhile, h]

theorem trimJS_fix (l : List Char) (h1 : headNotWs l) (h2 : lastNotWs l) :
    trimJS l = l := by
  rw [trimJS, dropWhile_fix l h1, trimRight_fix l h2]

theorem cleanShape (m : List Char) :
    noTwoWs (trimJS (collapseWS m)) ∧ headNotWs (trimJS (collapseWS m)) ∧
    lastNotWs (trimJS (collapseWS m)) ∧
    (∀ c ∈ trimJS (collapseWS m), jsWs c = true → c = ' ') := by
  refine ⟨?_, ?_, ?_, ?_⟩
  · exact noTwoWs_trimRight _
      (noTwoWs_dropWhile _ (noTwoWs_collapseAux false m))
  · exact headNotWs_trimRight _ (headNotWs_dropWhile _)
  · exact lastNotWs_trimRight _
  · intro c hc hcw
    simp only [trimJS] at hc
    exact wsSpace_collapseAux false m
      (mem_dropWhile _ (mem_trimRight _ hc)) hcw

theorem mem_trimJS_collapse {c : Char} {m : List Char}
    (h : c ∈ trimJS (collapseWS m)) : c = ' ' ∨ c ∈ m := by
  simp only [trimJS] at h
  exact mem_collapseAux false m (mem_dropWhile _ (mem_trimRight _ h))

theorem mem_rmRange {lo hi : Nat} {c : Char} {l : List Char}
    (h : c ∈ rmRange lo hi l) : ¬(lo ≤ c.toNat ∧ c.toNat ≤ hi) ∧ c ∈ l := by
  simp only [rmRange, List.mem_filter, Bool.not_eq_true',
    decide_eq_false_iff_not] at h
  exact ⟨h.2, h.1⟩

theorem rmRange_eq_self {lo hi : Nat} {l : List Char}
    (h : ∀ c ∈ l, ¬(lo ≤ c.toNat ∧ c.toNat ≤ hi)) : rmRange lo hi l = l :=
  List.filter_eq_self.mpr (fun c hc => by
    simp only [Bool.not_eq_true', decide_eq_false_iff_not]
    exact h c hc)

theorem mem_rmChain {c : Char} {l : List Char} (h : c ∈ rmChain l) :
    ¬removedAny c.toNat ∧ c ∈ l := by
  unfold rmChain at h
  have h1 := mem_rmRange h
  have h2 := mem_rmRange h1.2
  have h3 := mem_rmRange h2.2
  have h4 := mem_rmRange h3.2
  have h5 := mem_rmRange h4.2
  have h6 := mem_rmRange h5.2
  have h7 := mem_rmRange h6.2
  have h8 := mem_rmRange h7.2
  have h9 := mem_rmRange h8.2
  have h10 := mem_rmRange h9.2
  have h11 := mem_rmRange h10.2
  have h12 := mem_rmRange h11.2
  refine ⟨?_, h12.2⟩
  intro hrem
  unfold removedAny at hrem
  rcases hrem with h | h | h | h | h | h | h | h | h | h | h | h
  · exact h12.1 h
  · exact h11.1 h
  · exact h10.1 h
  · exact h9.1 h
  · exact h8.1 h
  · exact h7.1 h
  · exact h6.1 h
  · exact h5.1 h
  · exact h4.1 h
  · exact h3.1 h
  · exact h2.1 h
  · exact h1.1 h

theorem rmChain_fix {l : List Char} (h : ∀ c ∈ l, ¬removedAny c.toNat) :
    rmChain l = l := by
  have k : ∀ (lo hi : Nat),
      (∀ n, (lo ≤ n ∧ n ≤ hi) → removedAny n) → rmRange lo hi l = l := by
    intro lo hi himp
    exact rmRange_eq_self (fun c hc hr => h c hc (himp _ hr))
  unfold rmChain
  rw [k 0x1F300 0x1F9FF (fun n hr => Or.inl hr),
    k 0x2600 0x26FF (fun n hr => Or.inr (Or.inl hr)),
    k 0x2700 0x27BF (fun n hr => Or.inr (Or.inr (Or.inl hr))),
    k 0x1F600 0x1F64F (fun n hr => Or.inr (Or.inr (Or.inr (Or.inl hr)))),
    k 0x1F680 0x1F6FF
      (fun n hr => Or.inr (Or.inr (Or.inr (Or.inr (Or.inl hr))))),
    k 0x1F1E0 0x1F1FF
      (fun n hr => Or.inr (Or.inr (Or.inr (Or.inr (Or.inr (Or.inl hr)))))),
    k 0x1F900 0x1F9FF
      (fun n hr =>
        Or.inr (Or.inr (Or.inr (Or.inr (Or.inr (Or.inr (Or.inl hr))))))),
    k 0x1FA00 0x1FA6F
      (fun n hr =>
        Or.inr (Or.inr (Or.inr (Or.inr (Or.inr (Or.inr (Or.inr
          (Or.inl hr)))))))),
    k 0x1FA70 0x1FAFF
      (fun n hr =>
        Or.inr (Or.inr (Or.inr (Or.inr (Or.inr (Or.inr (Or.inr (Or.inr
          (Or.inl hr))))))))),
    k 0xFE00 0xFE0F
      (fun n hr =>
        Or.inr (Or.inr (Or.inr (Or.inr (Or.inr (Or.inr (Or.inr (Or.inr
          (Or.inr (Or.inl hr)))))))))),
    k 0x200D 0x200D
      (fun n hr =>
        Or.inr (Or.inr (Or.inr (Or.inr (Or.inr (Or.inr (Or.inr (Or.inr
          (Or.inr (Or.inr (Or.inl hr))))))))))),
    k 0x200C 0x200D
      (fun n hr =>
        Or.inr (Or.inr (Or.inr (Or.inr (Or.inr (Or.inr (Or.inr (Or.inr
          (Or.inr (Or.inr (Or.inr hr)))))))))))]

theorem rmChain_eq_filter (l : List Char) :
    rmChain l = l.filter (fun c => !(decide (removedAny c.toNat))) := by
  unfold rmChain rmRange
  simp only [List.filter_filter]
  apply List.filter_congr
  intro c _
  simp only [← decide_not, ← Bool.decide_and]
  apply decide_eq_decide.mpr
  unfold removedAny
  omega

theorem spec_filter_agrees (l : List Char) :
    l.filter (fun c => !(decide (removedAny c.toNat))) =
      l.filter (fun c => !(decide (specRemoved c.toNat))) := by
  apply List.filter_congr
  intro c _
  simp only [← decide_not]
  apply decide_eq_decide.mpr
  unfold removedAny specRemoved
  omega

theorem cleanTextForTTS_eq_spec (s : String) :
    cleanTextForTTS s = specSanitize s := by
  unfold cleanTextForTTS specSanitize cleanList
  rw [rmChain_eq_filter, spec_filter_agrees]

theorem cleanList_idem (l : List Char) :
    cleanList (cleanList l) = cleanList l := by
  have hshape := cleanShape (rmChain l)
  have hmem : ∀ c ∈ cleanList l, ¬removedAny c.toNat := by
    intro c hc
    unfold cleanList at hc
    rcases mem_trimJS_collapse hc with h | h
    · subst h
      decide
    · exact (mem_rmChain h).1
  have hfix1 : rmChain (cleanList l) = cleanList l := rmChain_fix hmem
  have hfix2 : collapseWS (cleanList l) = cleanList l := by
    unfold cleanList
    exact (collapse_fix _ hshape.1 hshape.2.2.2 hshape.2.2.1).1
  have hfix3 : trimJS (cleanList l) = cleanList l := by
    unfold cleanList
    exact trimJS_fix _ hshape.2.1 hshape.2.2.1
  show trimJS (collapseWS (rmChain (cleanList l))) = cleanList l
  rw [hfix1, hfix2, hfix3]

/-! ### Status-poll lemmas -/

theorem pollTick_busy_detect (s : MS) (h1 : s.pollOn = true)
    (h2 : s.current = some .main) (h3 : s.hasDetected = false)
    (h4 : 3 ≤ s.consec + 1) :
    pollTick true s =
      { s with consec := s.consec + 1, isSpeaking := true,
               hasDetected := true, stOn := false } := by
  unfold pollTick
  rw [if_neg (by simp [h1]), if_pos ⟨rfl, h2⟩,
    if_pos ⟨h4, by simp [h3]⟩]

theorem pollTick_busy_count (s : MS) (h1 : s.pollOn = true)
    (h2 : s.current = some .main) (h4 : ¬(3 ≤ s.consec + 1 ∧ ¬s.hasDetected = true)) :
    pollTick true s = { s with consec := s.consec + 1 } := by
  unfold pollTick
  rw [if_neg (by simp [h1]), if_pos ⟨rfl, h2⟩, if_neg h4]

theorem pollTick_busy_facts (s : MS) (h1 : s.pollOn = true)
    (h2 : s.current = some .main) :
    (pollTick true s).pollOn = true ∧
    (pollTick true s).current = some .main ∧
    (pollTick true s).consec = s.consec + 1 ∧
    ((pollTick true s).hasDetected = true ↔
      (s.hasDetected = true ∨ 3 ≤ s.consec + 1)) ∧
    ((pollTick true s).isSpeaking = true ↔
      (s.isSpeaking = true ∨ (s.hasDetected = false ∧ 3 ≤ s.consec + 1))) := by
  unfold pollTick
  rw [if_neg (by simp [h1]), if_pos ⟨rfl, h2⟩]
  by_cases hd : 3 ≤ s.consec + 1 ∧ ¬s.hasDetected = true
  · rw [if_pos hd]
    have hdf : s.hasDetected = false := by
      cases hx : s.hasDetected
      · rfl
      · exact absurd hx hd.2
    exact ⟨h1, h2, rfl, by simp [hd.1], by simp [hdf, hd.1]⟩
  · rw [if_neg hd]
    refine ⟨h1, h2, rfl, ?_, ?_⟩
    · constructor
      · exact fun hx => Or.inl hx
      · intro hx
        rcases hx with hx | hx
        · exact hx
        · cases hy : s.hasDetected
          · exact absurd ⟨hx, by simp [hy]⟩ hd
          · rfl
    · constructor
      · exact fun hx => Or.inl hx
      · intro hx
        rcases hx with hx | hx
        · exact hx
        · exact absurd ⟨hx.2, by simp [hx.1]⟩ hd

theorem pollTick_idle_end (s : MS) (h1 : s.pollOn = true)
    (h2 : s.current = some .main) (h3 : s.hasDetected = true) :
    pollTick false s =
      { s with consec := 0, isSpeaking := false, current := none,
               hasDetected := false, pollOn := false } := by
  unfold pollTick
  rw [if_neg (by simp [h1]), if_neg (by simp), if_pos h2,
    if_pos ⟨h3, by simp⟩]

/-! ### Voice-cache lemmas -/

theorem wfvLoop_step_found (env : Nat → List SpeechVoice) (st : VoiceCache)
    (attempt f : Nat) (h : (env (attempt + 1)).length > 0) :
    wfvLoop env st attempt (f + 1) =
      ⟨env (attempt + 1), ⟨env (attempt + 1), true⟩, attempt + 1⟩ := by
  simp only [wfvLoop]
  rw [if_pos h]

theorem wfvLoop_step_cap (env : Nat → List SpeechVoice) (st : VoiceCache)
    (attempt f : Nat) (h : ¬(env (attempt + 1)).length > 0)
    (h30 : 30 ≤ attempt + 1) :
    wfvLoop env st attempt (f + 1) = ⟨st.voices, st, attempt + 1⟩ := by
  simp only [wfvLoop]
  rw [if_neg h, if_pos h30]

theorem wfvLoop_step_next (env : Nat → List SpeechVoice) (st : VoiceCache)
    (attempt f : Nat) (h : ¬(env (attempt + 1)).length > 0)
    (h30 : ¬30 ≤ attempt + 1) :
    wfvLoop env st attempt (f + 1) = wfvLoop env st (attempt + 1) f := by
  simp only [wfvLoop]
  rw [if_neg h, if_neg h30]

theorem wfvLoop_cache (env : Nat → List SpeechVoice) (st : VoiceCache) :
    ∀ (fuel attempt : Nat),
    (wfvLoop env st attempt fuel).cache = st ∨
    ((wfvLoop env st attempt fuel).cache.voices ≠ [] ∧
      (wfvLoop env st attempt fuel).cache.loaded = true) := by
  intro fuel
  induction fuel with
  | zero => intro attempt; left; rfl
  | succ f ih =>
    intro attempt
    by_cases h : (env (attempt + 1)).length > 0
    · right
      rw [wfvLoop_step_found env st attempt f h]
      exact ⟨List.ne_nil_of_length_pos h, rfl⟩
    · by_cases h30 : 30 ≤ attempt + 1
      · left
        rw [wfvLoop_step_cap env st attempt f h h30]
      · rw [wfvLoop_step_next env st attempt f h h30]
        exact ih (attempt + 1)

theorem wfvLoop_polls_le (env : Nat → List SpeechVoice) (st : VoiceCache) :
    ∀ (fuel attempt : Nat), attempt + fuel ≤ 30 →
    (wfvLoop env st attempt fuel).polls ≤ 30 := by
  intro fuel
  induction fuel with
  | zero => intro attempt h; simpa [wfvLoop] using h
  | succ f ih =>
    intro attempt h
    by_cases he : (env (attempt + 1)).length > 0
    · rw [wfvLoop_step_found env st attempt f he]
      show attempt + 1 ≤ 30
      omega
    · by_cases h30 : 30 ≤ attempt + 1
      · rw [wfvLoop_step_cap env st attempt f he h30]
        show attempt + 1 ≤ 30
        omega
      · rw [wfvLoop_step_next env st attempt f he h30]
        exact ih (attempt + 1) (by omega)

theorem wfvLoop_exhaust (env : Nat → List SpeechVoice) (st : VoiceCache) :
    ∀ (fuel attempt : Nat), attempt + fuel = 30 →
    (∀ k, attempt < k → k ≤ 30 → env k = []) →
    wfvLoop env st attempt fuel = ⟨st.voices, st, 30⟩ := by
  intro fuel
  induction fuel with
  | zero =>
    intro attempt h _
    have ha : attempt = 30 := by omega
    rw [ha]
    rfl
  | succ f ih =>
    intro attempt h hemp
    have he : ¬(env (attempt + 1)).length > 0 := by
      rw [hemp _ (by omega) (by omega)]
      simp
    by_cases h30 : 30 ≤ attempt + 1
    · have ha : attempt + 1 = 30 := by omega
      rw [wfvLoop_step_cap env st attempt f he h30, ha]
    · rw [wfvLoop_step_next env st attempt f he h30]
      exact ih (attempt + 1) (by omega) (fun k hk1 hk2 => hemp k (by omega) hk2)

theorem waitForVoicesRun_cached (env : Nat → List SpeechVoice)
    (st : VoiceCache) (h1 : st.loaded = true) (h2 : st.voices.length > 0) :
    waitForVoicesRun env st = ⟨st.voices, st, 0⟩ := by
  unfold waitForVoicesRun
  rw [if_pos ⟨h1, h2⟩]

theorem waitForVoicesRun_sync (env : Nat → List SpeechVoice)
    (st : VoiceCache) (h1 : ¬(st.loaded ∧ st.voices.length > 0))
    (h2 : (env 0).length > 0) :
    waitForVoicesRun env st = ⟨env 0, ⟨env 0, true⟩, 0⟩ := by
  simp only [waitForVoicesRun]
  rw [if_neg h1, if_pos h2]

theorem waitForVoicesRun_poll (env : Nat → List SpeechVoice)
    (st : VoiceCache) (h1 : ¬(st.loaded ∧ st.voices.length > 0))
    (h2 : ¬(env 0).length > 0) :
    waitForVoicesRun env st = wfvLoop env st 0 30 := by
  simp only [waitForVoicesRun]
  rw [if_neg h1, if_neg h2]

theorem waitForVoicesRun_cache (env : Nat → List SpeechVoice)
    (st : VoiceCache) :
    (waitForVoicesRun env st).cache = st ∨
    ((waitForVoicesRun env st).cache.voices ≠ [] ∧
      (waitForVoicesRun env st).cache.loaded = true) := by
  by_cases h1 : st.loaded ∧ st.voices.length > 0
  · left
    rw [waitForVoicesRun_cached env st h1.1 h1.2]
  · by_cases h2 : (env 0).length > 0
    · right
      rw [waitForVoicesRun_sync env st h1 h2]
      exact ⟨List.ne_nil_of_length_pos h2, rfl⟩
    · rw [waitForVoicesRun_poll env st h1 h2]
      exact wfvLoop_cache env st 30 0

/-! ### Claim theorems -/

/-- C1 (amended).  For a speak call whose sanitized text is non-empty, when
the engine never reports busy and no callback fires, the controller cancels
residual engine state at the 1-second timeout and resubmits a retry
utterance with the same text, language, rate, pitch, volume and voice
exactly once (final `resubmits = 1`, `cancels = 1`); the retry has no
timeout window of its own, so when it also fails silently `isSpeaking`
stays false and no further automatic resubmission occurs (the event queue
is exhausted), but the retry utterance remains the active reference and no
Errored state is recorded. -/
theorem claim_C1_single_retry :
    runSilent =
      (⟨false, some .retry, false, false, 0, false, 1, 1, false⟩, []) ∧
    (∀ (cleaned : String) (voice : Option SpeechVoice),
      mkRetryUtterance cleaned (mkUtterance cleaned voice) =
        mkUtterance cleaned voice) :=
  ⟨by decide, fun _ _ => rfl⟩

/-- C1 counterexample.  The claim as stated fails on the code in two ways.
First, under the transiently busy engine (busy at the 100ms and 300ms
observations, idle afterwards) neither the callback path nor the polling
path ever confirms speaking (`isSpeaking` false, `hasDetected` false), yet
the code resubmits twice: once through the immediate-retry path at ~700ms
and once through the 1-second timeout path.  Second, in the silent-drop
run the doubly failed request never reaches an Errored terminal state: the
retry utterance is still the active reference at quiescence and no error
is recorded, whereas reaching Errored would clear the active-request
reference. -/
theorem claim_C1_counterexample :
    runTransient.1.resubmits = 2 ∧ runTransient.1.isSpeaking = false ∧
    runTransient.1.hasDetected = false ∧ runTransient.2 = [] ∧
    runSilent.1.current = some .retry ∧ runSilent.1.errorMarked = false := by
  decide

/-- C2 (code-bug evidence).  A callback belonging to a superseded request
is not always a no-op: the retry utterance's `onend` / `onerror` handlers
(source lines 571-580) reset `isSpeaking` and clear the active-request
reference unconditionally, and the main utterance's `onstart` (lines
340-345) sets `isSpeaking` unconditionally, so each of them clobbers the
state of a successor request (here generation 2); only the main
utterance's `onend` / `onerror` carry the active-request guard and are
no-ops when stale. -/
theorem claim_C2_stale_callback :
    retryUttOnEnd ⟨true, some 2⟩ = ⟨false, none⟩ ∧
    retryUttOnError ⟨true, some 2⟩ = ⟨false, none⟩ ∧
    (⟨false, none⟩ : CtrlObs) ≠ ⟨true, some 2⟩ ∧
    utteranceOnStart ⟨false, some 2⟩ = ⟨true, some 2⟩ ∧
    utteranceOnEnd 1 ⟨true, some 2⟩ = ⟨true, some 2⟩ ∧
    (utteranceOnError 1 true ⟨true, some 2⟩).1 = ⟨true, some 2⟩ := by
  decide

/-- C3.  For an active utterance with no start callback observed
(`hasDetected = false`), three consecutive status-poll ticks that see the
engine busy make `isSpeaking` true without any callback firing; and once
confirmed through polling, the first subsequent tick that sees the engine
idle resets `isSpeaking`, clears the active-request reference, and stops
the interval. -/
theorem claim_C3_polling_confirmation (s : MS) :
    (s.pollOn = true → s.current = some .main → s.hasDetected = false →
      ((pollTick true (pollTick true (pollTick true s))).isSpeaking = true ∧
       (pollTick true (pollTick true (pollTick true s))).hasDetected = true)) ∧
    (s.pollOn = true → s.current = some .main → s.hasDetected = true →
      ((pollTick false s).isSpeaking = false ∧
       (pollTick false s).current = none ∧
       (pollTick false s).pollOn = false)) := by
  constructor
  · intro h1 h2 h3
    obtain ⟨a1, a2, a3, a4, a5⟩ := pollTick_busy_facts s h1 h2
    obtain ⟨b1, b2, b3, b4, b5⟩ := pollTick_busy_facts _ a1 a2
    obtain ⟨c1, c2, c3, c4, c5⟩ := pollTick_busy_facts _ b1 b2
    constructor
    · apply c5.mpr
      cases hb : (pollTick true (pollTick true s)).hasDetected
      · exact Or.inr ⟨rfl, by omega⟩
      · rcases b4.mp hb with hf | hf
        · rcases a4.mp hf with hs | hs
          · rw [h3] at hs
            cases hs
          · exact Or.inl (b5.mpr (Or.inl (a5.mpr (Or.inr ⟨h3, hs⟩))))
        · cases hfd : (pollTick true s).hasDetected
          · exact Or.inl (b5.mpr (Or.inr ⟨hfd, hf⟩))
          · rcases a4.mp hfd with hs | hs
            · rw [h3] at hs
              cases hs
            · exact Or.inl (b5.mpr (Or.inl (a5.mpr (Or.inr ⟨h3, hs⟩))))
    · apply c4.mpr
      exact Or.inr (by omega)
  · intro h1 h2 h3
    rw [pollTick_idle_end s h1 h2 h3]
    exact ⟨rfl, rfl, rfl⟩

/-- C3 witness: the confirmation part evaluated at the state right after
submission, and the end-detection part at a polling-confirmed state. -/
theorem claim_C3_witness :
    ((pollTick true (pollTick true (pollTick true initMS))).isSpeaking = true ∧
     (pollTick true (pollTick true (pollTick true initMS))).hasDetected = true) ∧
    ((pollTick false ⟨true, some .main, true, false, 3, true, 0, 0, false⟩).isSpeaking
        = false ∧
     (pollTick false ⟨true, some .main, true, false, 3, true, 0, 0, false⟩).current
        = none ∧
     (pollTick false ⟨true, some .main, true, false, 3, true, 0, 0, false⟩).pollOn
        = false) :=
  ⟨(claim_C3_polling_confirmation initMS).1 rfl rfl rfl,
   (claim_C3_polling_confirmation
      ⟨true, some .main, true, false, 3, true, 0, 0, false⟩).2 rfl rfl rfl⟩

/-- C6.  The voice selection of the playback controller agrees everywhere
with the specification's cascade (first exact `ko-KR` match, else first
`ko`-prefix match, else first voice whose language contains `KR`, else the
first voice of a non-empty catalog, else none), and in particular picks
the exact match from `[en-US, ko-KR, ko]` and falls back to `en-US` when
the catalog holds only `[en-US]`. -/
theorem claim_C6_voice_selection :
    (∀ vs : List SpeechVoice, chooseUtteranceVoice vs = specSelectVoice vs) ∧
    chooseUtteranceVoice [⟨"a", "en-US"⟩, ⟨"b", "ko-KR"⟩, ⟨"c", "ko"⟩] =
      some ⟨"b", "ko-KR"⟩ ∧
    chooseUtteranceVoice [⟨"a", "en-US"⟩] = some ⟨"a", "en-US"⟩ ∧
    chooseUtteranceVoice [] = none := by
  refine ⟨?_, by decide, by decide, by decide⟩
  intro vs
  unfold chooseUtteranceVoice specSelectVoice selectKoreanVoice
  cases h1 : vs.find? (fun v => v.lang == "ko-KR") with
  | some v => simp [Option.orElse]
  | none =>
    cases h2 : vs.find? (fun v => strStarts "ko".data v.lang.data) with
    | some v => simp [Option.orElse]
    | none =>
      cases h3 : vs.find? (fun v => strHas "KR".data v.lang.data) with
      | some v => simp [Option.orElse]
      | none => simp [Option.orElse]

/-- C9.  When the engine is neither speaking nor pending, `stopSpeaking`
resolves immediately (wait 0) with engine and observable state unchanged,
so `isSpeaking` stays false when it was false; when the engine is busy it
cancels, resets `isSpeaking`, clears the active-request reference, and
resolves after the fixed 100ms delay (a bounded wait). -/
theorem claim_C9_stop_idempotent (e : Engine) (st : CtrlObs) :
    ((e.speaking || e.pending) = false → stopSpeaking e st = (e, st, 0)) ∧
    ((e.speaking || e.pending) = true →
      stopSpeaking e st = (⟨false, false⟩, ⟨false, none⟩, 100)) ∧
    (stopSpeaking e st).2.2 ≤ 100 ∧
    (st.isSpeaking = false → (stopSpeaking e st).2.1.isSpeaking = false) := by
  unfold stopSpeaking
  by_cases h : (e.speaking || e.pending) = true
  · rw [if_pos h]
    exact ⟨fun hf => absurd h (by simp [hf]), fun _ => rfl,
      Nat.le_refl 100, fun _ => rfl⟩
  · rw [if_neg h]
    exact ⟨fun _ => rfl, fun ht => absurd ht h, Nat.zero_le 100,
      fun hs => hs⟩

/-- C9 witness: `stopSpeaking` evaluated at an idle engine (no change,
immediate resolve) and at a busy engine (cancel, reset, 100ms wait). -/
theorem claim_C9_witness :
    stopSpeaking ⟨false, false⟩ ⟨false, none⟩ =
      (⟨false, false⟩, ⟨false, none⟩, 0) ∧
    stopSpeaking ⟨true, false⟩ ⟨true, some 1⟩ =
      (⟨false, false⟩, ⟨false, none⟩, 100) :=
  ⟨(claim_C9_stop_idempotent ⟨false, false⟩ ⟨false, none⟩).1 (by decide),
   (claim_C9_stop_idempotent ⟨true, false⟩ ⟨true, some 1⟩).2.1 (by decide)⟩

/-- C5.  When the sanitized text is empty, `handleSpeak` returns before
touching anything: the engine is not cancelled, `isSpeaking` and the
active-request reference are unchanged, the voice cache is unchanged,
nothing is submitted, and no error is surfaced to the caller. -/
theorem claim_C5_nocontent (text : String) (e : Engine) (st : CtrlObs)
    (cache : VoiceCache) (venv : Nat → List SpeechVoice)
    (now : List SpeechVoice) (gen : Nat)
    (h : cleanTextForTTS text = "") :
    handleSpeakEntry text e st cache venv now gen =
      ⟨e, st, cache, false, none, false⟩ := by
  simp only [handleSpeakEntry]
  rw [if_pos h]

/-- C5 witness: a text consisting solely of pictographic code points
sanitizes to the empty string, and the call leaves a busy engine and an
active prior request untouched. -/
theorem claim_C5_witness :
    cleanTextForTTS "👋😊" = "" ∧
    handleSpeakEntry "👋😊" ⟨true, false⟩ ⟨true, some 3⟩
        ⟨[⟨"v", "en-US"⟩], true⟩ (fun _ => []) [] 9 =
      ⟨⟨true, false⟩, ⟨true, some 3⟩, ⟨[⟨"v", "en-US"⟩], true⟩, false, none,
        false⟩ :=
  ⟨by decide, claim_C5_nocontent _ _ _ _ _ _ _ (by decide)⟩

/-- C4.  Whenever `handleSpeak` submits an utterance, the submitted text is
exactly the sanitized input and is non-empty; the sanitizer agrees with
the specification's description (remove the pictographic / selector /
zero-width classes, collapse whitespace runs, trim); and the Korean
scenario sanitizes and submits as specified. -/
theorem claim_C4_submission_sanitized :
    (∀ (text : String) (e : Engine) (st : CtrlObs) (cache : VoiceCache)
        (venv : Nat → List SpeechVoice) (now : List SpeechVoice) (gen : Nat)
        (u : UttReq),
      (handleSpeakEntry text e st cache venv now gen).submitted = some u →
      u.text = cleanTextForTTS text ∧ u.text ≠ "") ∧
    (∀ s : String, cleanTextForTTS s = specSanitize s) ∧
    cleanTextForTTS "안녕하세요 👋 오늘 기분 어때요? 😊" =
      "안녕하세요 오늘 기분 어때요?" ∧
    (handleSpeakEntry "안녕하세요 👋 오늘 기분 어때요? 😊" ⟨false, false⟩
        ⟨false, none⟩ ⟨[], false⟩ (fun _ => []) [] 7).submitted =
      some (mkUtterance "안녕하세요 오늘 기분 어때요?" none) := by
  refine ⟨?_, cleanTextForTTS_eq_spec, by decide, by decide⟩
  intro text e st cache venv now gen u h
  simp only [handleSpeakEntry] at h
  by_cases hc : cleanTextForTTS text = ""
  · rw [if_pos hc] at h
    cases h
  · rw [if_neg hc] at h
    have h2 := Option.some.inj h
    rw [← h2]
    exact ⟨rfl, fun he => hc he⟩

/-- C4 witness: the submitted-utterance conjunct evaluated on the Korean
scenario submission. -/
theorem claim_C4_witness :
    (mkUtterance "안녕하세요 오늘 기분 어때요?" none).text =
      cleanTextForTTS "안녕하세요 👋 오늘 기분 어때요? 😊" ∧
    (mkUtterance "안녕하세요 오늘 기분 어때요?" none).text ≠ "" :=
  claim_C4_submission_sanitized.1 "안녕하세요 👋 오늘 기분 어때요? 😊"
    ⟨false, false⟩ ⟨false, none⟩ ⟨[], false⟩ (fun _ => []) [] 7
    (mkUtterance "안녕하세요 오늘 기분 어때요?" none) (by decide)

/-- C7.  The voice cache is only ever assigned a non-empty list (by the
loader, by `waitForVoices`, and by the `handleSpeak` fallback re-read), so
a non-empty cache is never cleared or replaced by an empty one; every
assignment also sets the loaded flag, and once the cache is loaded and
non-empty, `waitForVoices` returns the cached list immediately with zero
polling ticks. -/
theorem claim_C7_cache_monotone :
    (∀ (reported : List SpeechVoice) (st : VoiceCache),
      (st.voices ≠ [] → (loadVoices reported st).voices ≠ []) ∧
      (CacheInv st → CacheInv (loadVoices reported st))) ∧
    (∀ (env : Nat → List SpeechVoice) (st : VoiceCache),
      (st.voices ≠ [] → (waitForVoicesRun env st).cache.voices ≠ []) ∧
      (CacheInv st → CacheInv (waitForVoicesRun env st).cache)) ∧
    (∀ (text : String) (e : Engine) (obs : CtrlObs) (cache : VoiceCache)
        (venv : Nat → List SpeechVoice) (now : List SpeechVoice) (gen : Nat),
      (cache.voices ≠ [] →
        (handleSpeakEntry text e obs cache venv now gen).cache.voices ≠ []) ∧
      (CacheInv cache →
        CacheInv (handleSpeakEntry text e obs cache venv now gen).cache)) ∧
    (∀ (env : Nat → List SpeechVoice) (st : VoiceCache),
      CacheInv st → st.voices ≠ [] →
      waitForVoicesRun env st = ⟨st.voices, st, 0⟩) := by
  refine ⟨?_, ?_, ?_, ?_⟩
  · intro reported st
    unfold loadVoices
    by_cases h : reported.length > 0
    · rw [if_pos h]
      exact ⟨fun _ => List.ne_nil_of_length_pos h, fun _ _ => rfl⟩
    · rw [if_neg h]
      exact ⟨id, id⟩
  · intro env st
    rcases waitForVoicesRun_cache env st with hc | hc
    · rw [hc]
      exact ⟨id, id⟩
    · exact ⟨fun _ => hc.1, fun _ _ => hc.2⟩
  · intro text e obs cache venv now gen
    by_cases hc : cleanTextForTTS text = ""
    · have heq : handleSpeakEntry text e obs cache venv now gen =
          ⟨e, obs, cache, false, none, false⟩ := by
        simp only [handleSpeakEntry]
        rw [if_pos hc]
      rw [heq]
      exact ⟨id, id⟩
    · have heq : (handleSpeakEntry text e obs cache venv now gen).cache =
          (if (waitForVoicesRun venv cache).result.length = 0 then
            (if now.length > 0 then ⟨now, true⟩
             else (waitForVoicesRun venv cache).cache)
           else (waitForVoicesRun venv cache).cache) := by
        simp only [handleSpeakEntry]
        rw [if_neg hc]
      rw [heq]
      by_cases h0 : (waitForVoicesRun venv cache).result.length = 0
      · rw [if_pos h0]
        by_cases hn : now.length > 0
        · rw [if_pos hn]
          exact ⟨fun _ => List.ne_nil_of_length_pos hn, fun _ _ => rfl⟩
        · rw [if_neg hn]
          rcases waitForVoicesRun_cache venv cache with hcc | hcc
          · rw [hcc]
            exact ⟨id, id⟩
          · exact ⟨fun _ => hcc.1, fun _ _ => hcc.2⟩
      · rw [if_neg h0]
        rcases waitForVoicesRun_cache venv cache with hcc | hcc
        · rw [hcc]
          exact ⟨id, id⟩
        · exact ⟨fun _ => hcc.1, fun _ _ => hcc.2⟩
  · intro env st hinv hne
    exact waitForVoicesRun_cached env st (hinv hne) (List.length_pos.mpr hne)

/-- C7 witness: a non-empty loaded cache stays non-empty under the loader,
and `waitForVoices` on it returns the cache immediately with zero polls. -/
theorem claim_C7_witness :
    (loadVoices [⟨"v", "ko-KR"⟩] ⟨[⟨"w", "en-US"⟩], true⟩).voices ≠ [] ∧
    waitForVoicesRun (fun _ => []) ⟨[⟨"w", "en-US"⟩], true⟩ =
      ⟨[⟨"w", "en-US"⟩], ⟨[⟨"w", "en-US"⟩], true⟩, 0⟩ :=
  ⟨(claim_C7_cache_monotone.1 [⟨"v", "ko-KR"⟩] ⟨[⟨"w", "en-US"⟩], true⟩).1
      (by decide),
   claim_C7_cache_monotone.2.2.2 (fun _ => []) ⟨[⟨"w", "en-US"⟩], true⟩
      (fun _ => rfl) (by decide)⟩

/-- C8.  `waitForVoices` always resolves: its polling is capped at 30
ticks; when the cache path does not apply and the immediate synchronous
read is non-empty it resolves at once with that read; and when every read
through the 30th tick is empty it resolves on exhaustion with the current
(possibly empty) cache contents instead of failing. -/
theorem claim_C8_wait_bounded (env : Nat → List SpeechVoice)
    (st : VoiceCache) :
    (waitForVoicesRun env st).polls ≤ 30 ∧
    (¬(st.loaded = true ∧ st.voices.length > 0) → (env 0).length > 0 →
      waitForVoicesRun env st = ⟨env 0, ⟨env 0, true⟩, 0⟩) ∧
    (¬(st.loaded = true ∧ st.voices.length > 0) → env 0 = [] →
      (∀ k, 1 ≤ k → k ≤ 30 → env k = []) →
      waitForVoicesRun env st = ⟨st.voices, st, 30⟩) := by
  refine ⟨?_, ?_, ?_⟩
  · by_cases h1 : st.loaded ∧ st.voices.length > 0
    · rw [waitForVoicesRun_cached env st h1.1 h1.2]
      exact Nat.zero_le 30
    · by_cases h2 : (env 0).length > 0
      · rw [waitForVoicesRun_sync env st h1 h2]
        exact Nat.zero_le 30
      · rw [waitForVoicesRun_poll env st h1 h2]
        exact wfvLoop_polls_le env st 30 0 (by omega)
  · intro h1 h2
    exact waitForVoicesRun_sync env st h1 h2
  · intro h1 h2 h3
    rw [waitForVoicesRun_poll env st h1 (by simp [h2])]
    exact wfvLoop_exhaust env st 30 0 rfl (fun k hk1 hk2 => h3 k hk1 hk2)

/-- C8 witness: the exhaustion case evaluated with an always-empty
platform directory and an empty cache resolves with the empty list after
exactly 30 polls instead of failing. -/
theorem claim_C8_witness :
    waitForVoicesRun (fun _ => []) ⟨[], false⟩ = ⟨[], ⟨[], false⟩, 30⟩ :=
  (claim_C8_wait_bounded (fun _ => []) ⟨[], false⟩).2.2 (by simp) rfl
    (fun _ _ _ => rfl)

/-- C10.  The text sanitizer is idempotent: sanitized output contains no
removed code points, all its whitespace is single interior spaces, and it
has no leading or trailing whitespace, so a second pass is the
identity. -/
theorem claim_C10_sanitizer_idempotent (s : String) :
    cleanTextForTTS (cleanTextForTTS s) = cleanTextForTTS s :=
  congrArg String.mk (cleanList_idem s.data)

end MindMate
